import Mathlib

/-!
Shallow embedding of the core logic of `src/filter_scenarios.py`
(Kimhan-nah/kakao-chatbot-search): the indentation-hierarchy block-id
parser (`parse_block_ids_from_text`), the per-environment dataset lookups
(`search_blocks_by_id`, `search_blocks`, `validate_block_ids`), and the
multi-environment matching functions (`find_matching_blocks_in_other_envs`,
`search_by_block_id_multi_env`, `search_blocks_multi_env`) together with
the search-mode dispatch of `main` and the grouping step of
`display_search_results_multi_env`.

Modelling conventions:
- Python dicts keyed by strings are modelled as association lists in
  insertion order (Python dicts iterate in insertion order); repeated
  assignment to the same key is modelled where it occurs (last write wins).
- Python's `\s` / `str.strip` whitespace is modelled by the six ASCII
  whitespace characters (space, tab, newline, carriage return, vertical
  tab, form feed); the repository's inputs are ASCII-range here.
- `scenario.get('id', 'N/A')`-style dictionary access is modelled by total
  record fields: every scenario/item record carries its fields.
- A missing (None) snapshot and an empty snapshot list are both falsy in
  Python and flow through identical branches in every modelled function,
  so both are represented by the empty list.
-/

namespace FilterScenarios

/-! ## Data model: scenarios (collections) and blocks (items) -/

structure Item where
  id : String
  name : String
deriving DecidableEq

structure Scenario where
  id : String
  name : String
  items : List Item
deriving DecidableEq

structure BlockInfo where
  scenario_id : String
  scenario_name : String
  block_id : String
  block_name : String
deriving DecidableEq

/-! ## Line-level text machinery for `parse_block_ids_from_text`

The Python function matches each line, after `rstrip`, against
`^(\s*)([a-zA-Z_][a-zA-Z0-9_]*):\s*([a-f0-9]{24})\s*(?:#.*)?$` (with
`re.IGNORECASE`, so the hex group also accepts `A`-`F`) and, failing that,
against `^(\s*)([a-zA-Z_][a-zA-Z0-9_]*):\s*(?:#.*)?$`.  Both anchored
patterns are deterministic (no character class overlaps an adjacent
delimiter), so they are embedded as greedy character-level scanners. -/

def isSpaceChar (c : Char) : Bool :=
  c == ' ' || c == '\t' || c == '\n' || c == '\r' ||
    c == Char.ofNat 11 || c == Char.ofNat 12

def isNameStart (c : Char) : Bool :=
  c.isAlpha || c == '_'

def isNameChar (c : Char) : Bool :=
  c.isAlphanum || c == '_'

def isHexChar (c : Char) : Bool :=
  c.isDigit || ('a' ≤ c && c ≤ 'f') || ('A' ≤ c && c ≤ 'F')

/-- Python `line.rstrip()` restricted to ASCII whitespace. -/
def rstripChars (l : List Char) : List Char :=
  (l.reverse.dropWhile isSpaceChar).reverse

/-- Greedy `[a-zA-Z_][a-zA-Z0-9_]*`: the matched name and the rest. -/
def takeName : List Char → Option (List Char × List Char)
  | [] => none
  | c :: cs =>
    if isNameStart c then some (c :: cs.takeWhile isNameChar, cs.dropWhile isNameChar)
    else none

/-- The part of the leaf-reference regex after the colon:
`\s*([a-f0-9]{24})\s*(?:#.*)?$` with case-insensitive hex; returns the
matched 24-character group. -/
def hexTail (r2 : List Char) : Option (List Char) :=
  let r3 := r2.dropWhile isSpaceChar
  let hex := r3.take 24
  if hex.length = 24 && hex.all isHexChar then
    match (r3.drop 24).dropWhile isSpaceChar with
    | [] => some hex
    | '#' :: _ => some hex
    | _ :: _ => none
  else none

/-- The leaf-reference regex `^(\s*)(name):\s*([a-f0-9]{24})\s*(?:#.*)?$`
(case-insensitive hex).  Returns `(indent, name, hex)` on a match. -/
def matchLeaf (l : List Char) : Option (Nat × List Char × List Char) :=
  match takeName (l.dropWhile isSpaceChar) with
  | none => none
  | some (name, rest) =>
    match rest with
    | ':' :: r2 =>
      (hexTail r2).map (fun hex => ((l.takeWhile isSpaceChar).length, name, hex))
    | _ => none

/-- The path-node regex `^(\s*)(name):\s*(?:#.*)?$`.
Returns `(indent, name)` on a match. -/
def matchNode (l : List Char) : Option (Nat × List Char) :=
  match takeName (l.dropWhile isSpaceChar) with
  | none => none
  | some (name, rest) =>
    match rest with
    | ':' :: r2 =>
      match r2.dropWhile isSpaceChar with
      | [] => some ((l.takeWhile isSpaceChar).length, name)
      | '#' :: _ => some ((l.takeWhile isSpaceChar).length, name)
      | _ :: _ => none
    | _ => none

/-! ## The path stack

The Python `path_stack` is a list used as a stack via `append`/`pop` at
its end; here the stack is kept head-first (the list head is the Python
`path_stack[-1]`). -/

structure ParseState where
  stack : List (String × Nat)
  out : List (String × String × Nat)
deriving DecidableEq

/-- Python `while path_stack and path_stack[-1][1] >= indent: path_stack.pop()`. -/
def popTo (indent : Nat) (st : List (String × Nat)) : List (String × Nat) :=
  st.dropWhile (fun p => decide (indent ≤ p.2))

/-- Python path construction: `'.'.join([p[0] for p in path_stack] + [var_name])`
when the stack is non-empty, else `var_name`. -/
def joinPath (stack : List (String × Nat)) (var_name : String) : String :=
  if stack = [] then var_name
  else String.intercalate "." ((stack.reverse.map Prod.fst) ++ [var_name])

/-- One iteration of the parser loop on the already-`rstrip`ed line. -/
def processLineCore (st : ParseState) (lineNum : Nat) (line : List Char) : ParseState :=
  if line.dropWhile isSpaceChar = [] then st
  else if (line.dropWhile isSpaceChar).head? = some '#' then st
  else
    match matchLeaf line with
    | some (indent, nameChars, hexChars) =>
      { stack := (String.mk nameChars, indent) :: popTo indent st.stack,
        out := st.out ++
          [(String.mk hexChars, joinPath (popTo indent st.stack) (String.mk nameChars), lineNum)] }
    | none =>
      match matchNode line with
      | some (indent, nameChars) =>
        { st with stack := (String.mk nameChars, indent) :: popTo indent st.stack }
      | none => st

def processLine (st : ParseState) (ln : Nat × String) : ParseState :=
  processLineCore st ln.1 (rstripChars ln.2.data)

def processLines (st : ParseState) (lines : List (Nat × String)) : ParseState :=
  lines.foldl processLine st

/-- Python `text.split('\n')` at character level: `n` separators yield
`n + 1` (possibly empty) pieces. -/
def splitOnNewline : List Char → List (List Char)
  | [] => [[]]
  | c :: cs =>
    match splitOnNewline cs with
    | [] => [[]]
    | r :: rs => if c = '\n' then [] :: r :: rs else (c :: r) :: rs

/-- `parse_block_ids_from_text`: split on newlines, enumerate from 1, run
the stack machine, return the `(block_id, path, line_number)` triples. -/
def parse_block_ids_from_text (text : String) : List (String × String × Nat) :=
  (processLines ⟨[], []⟩
    (List.enumFrom 1 ((splitOnNewline text.data).map String.mk))).out

/-! ## Per-environment lookups -/

/-- `search_blocks_by_id`: nested loops over scenarios and items, returning
on the first item whose id equals `block_id`. -/
def search_blocks_by_id (scenarios : List Scenario) (block_id : String) : Option BlockInfo :=
  match scenarios with
  | [] => none
  | sc :: rest =>
    match sc.items.find? (fun it => it.id == block_id) with
    | some it => some ⟨sc.id, sc.name, block_id, it.name⟩
    | none => search_blocks_by_id rest block_id

/-- Does `needle` match at the head of `hay`? -/
def matchesAt : List Char → List Char → Bool
  | [], _ => true
  | _ :: _, [] => false
  | c :: cs, d :: ds => c == d && matchesAt cs ds

/-- Python substring test `needle in hay` at character level. -/
def containsSub (needle : List Char) : List Char → Bool
  | [] => needle.isEmpty
  | d :: ds => matchesAt needle (d :: ds) || containsSub needle ds

/-- Python `str.lower()` restricted to ASCII case mapping. -/
def lowerChars (l : List Char) : List Char :=
  l.map Char.toLower

/-- `search_blocks`: for a non-empty term, collect every block whose name
contains the term case-insensitively, scenario by scenario. -/
def search_blocks (scenarios : List Scenario) (search_term : String) : List BlockInfo :=
  if search_term = "" then []
  else
    (scenarios.map (fun sc =>
      sc.items.filterMap (fun it =>
        if containsSub (lowerChars search_term.data) (lowerChars it.name.data) then
          some ⟨sc.id, sc.name, it.id, it.name⟩
        else none))).flatten

/-! ## Validator (`validate_block_ids`)

The Python function first builds `all_blocks`, a dict from block id to
scenario/block metadata, by iterating all scenarios and items and
assigning `all_blocks[block_id] = ...` for each; a repeated id is
overwritten, so the LAST insertion for a key wins.  The dict's two uses
(`in` and `[]`) are modelled by a last-match lookup over the insertion
sequence. -/

structure BlockMeta where
  scenario_id : String
  scenario_name : String
  block_name : String
deriving DecidableEq

def all_blocks_entries (scenarios : List Scenario) : List (String × BlockMeta) :=
  (scenarios.map (fun sc =>
    sc.items.map (fun it => (it.id, ⟨sc.id, sc.name, it.name⟩)))).flatten

/-- Lookup in a dict built by repeated assignment: last write wins. -/
def dictLookupLast (entries : List (String × BlockMeta)) (k : String) : Option BlockMeta :=
  (entries.reverse.find? (fun p => p.1 == k)).map Prod.snd

structure ValidationResult where
  block_id : String
  path : String
  line_number : Nat
  valid : Bool
  scenario_id : Option String
  scenario_name : Option String
  block_name : Option String
deriving DecidableEq

/-- `validate_block_ids`: one result per input triple, in input order.
The `env_name` argument is accepted and unused, as in the source. -/
def validate_block_ids (block_ids : List (String × String × Nat))
    (scenarios : List Scenario) (env_name : String) : List ValidationResult :=
  block_ids.map (fun t =>
    match dictLookupLast (all_blocks_entries scenarios) t.1 with
    | some m => ⟨t.1, t.2.1, t.2.2, true, some m.scenario_id, some m.scenario_name, some m.block_name⟩
    | none => ⟨t.1, t.2.1, t.2.2, false, none, none, none⟩)

/-! ## Multi-environment matching

`env_scenarios` is a Python dict from environment name to scenario list;
it is modelled as an association list in insertion order. -/

/-- The per-environment body of `find_matching_blocks_in_other_envs`:
first scenario with the given name, then first of its items with the
given block name. -/
def match_block_in_env (scenarios : List Scenario)
    (scenario_name block_name : String) : Option BlockInfo :=
  if scenarios = [] then none
  else
    match scenarios.find? (fun sc => sc.name == scenario_name) with
    | none => none
    | some sc =>
      match sc.items.find? (fun it => it.name == block_name) with
      | none => none
      | some it => some ⟨sc.id, scenario_name, it.id, block_name⟩

/-- `find_matching_blocks_in_other_envs`: the `source_env` argument is
accepted and unused, as in the source (the loop covers every environment,
the source included). -/
def find_matching_blocks_in_other_envs (env_scenarios : List (String × List Scenario))
    (source_env scenario_name block_name : String) : List (String × Option BlockInfo) :=
  env_scenarios.map (fun p => (p.1, match_block_in_env p.2 scenario_name block_name))

/-- `search_blocks_multi_env`: name search in every environment; an empty
(or absent) snapshot contributes an empty result list. -/
def search_blocks_multi_env (env_scenarios : List (String × List Scenario))
    (search_term : String) : List (String × List BlockInfo) :=
  env_scenarios.map (fun p =>
    (p.1, if p.2 = [] then [] else search_blocks p.2 search_term))

/-- The `source_info` selection inside `search_by_block_id_multi_env`: the
first environment, in insertion order, with a non-empty snapshot where the
id lookup succeeds, paired with the looked-up block. -/
def sbMsource (env_scenarios : List (String × List Scenario)) (block_id : String) :
    Option (String × BlockInfo) :=
  env_scenarios.findSome? (fun p =>
    if p.2 = [] then none
    else (search_blocks_by_id p.2 block_id).map (fun b => (p.1, b)))

/-- The `found_blocks` dict of `search_by_block_id_multi_env` before the
merge step: direct id lookup per environment, `None` for an empty
snapshot. -/
def sbmDirect (env_scenarios : List (String × List Scenario)) (block_id : String) :
    List (String × Option BlockInfo) :=
  env_scenarios.map (fun p =>
    (p.1, if p.2 = [] then none else search_blocks_by_id p.2 block_id))

/-- `search_by_block_id_multi_env`: direct id lookup per environment, then,
when a source was found, fill each still-`None` entry from the name-based
match (`found_blocks[env] = matching_blocks[env]` only when the former is
falsy and the latter truthy). -/
def search_by_block_id_multi_env (env_scenarios : List (String × List Scenario))
    (block_id : String) : List (String × Option BlockInfo) :=
  match sbMsource env_scenarios block_id with
  | none => sbmDirect env_scenarios block_id
  | some src =>
    (sbmDirect env_scenarios block_id).map (fun p =>
      (p.1,
        match p.2 with
        | some x => some x
        | none =>
          match (find_matching_blocks_in_other_envs env_scenarios src.1
              src.2.scenario_name src.2.block_name).lookup p.1 with
          | some (some m) => some m
          | some none => none
          | none => none))

/-! ## Search-mode dispatch (`main`, option 5) and result grouping
(`display_search_results_multi_env`) -/

/-- The `block_id_found` flag of `main`: some loaded environment's snapshot
is non-empty and resolves the term as a block id. -/
def block_id_found (env_scenarios : List (String × List Scenario)) (term : String) : Bool :=
  env_scenarios.any (fun p => !p.2.isEmpty && (search_blocks_by_id p.2 term).isSome)

/-- The dispatch in `main`: id mode when `block_id_found`, else name mode. -/
def search_mode_dispatch (env_scenarios : List (String × List Scenario)) (term : String) :
    Sum (List (String × Option BlockInfo)) (List (String × List BlockInfo)) :=
  if block_id_found env_scenarios term then
    Sum.inl (search_by_block_id_multi_env env_scenarios term)
  else
    Sum.inr (search_blocks_multi_env env_scenarios term)

structure EnvEntry where
  scenario_id : String
  block_id : String
deriving DecidableEq

structure Group where
  scenario_name : String
  block_name : String
  envs : List (String × EnvEntry)
deriving DecidableEq

/-- The grouping key `f"{scenario_name}::{block_name}"`. -/
def groupKey (r : BlockInfo) : String :=
  r.scenario_name ++ "::" ++ r.block_name

/-- Python dict assignment `d[k] = v`: update in place when the key exists,
append otherwise. -/
def dictInsert {α : Type} (d : List (String × α)) (k : String) (v : α) : List (String × α) :=
  if d.any (fun p => p.1 == k) then d.map (fun p => if p.1 == k then (p.1, v) else p)
  else d ++ [(k, v)]

/-- The `if key not in block_groups` step: create the group on first sight
of its key. -/
def ensureGroup (gs : List (String × Group)) (r : BlockInfo) : List (String × Group) :=
  if gs.any (fun p => p.1 == groupKey r) then gs
  else gs ++ [(groupKey r, ⟨r.scenario_name, r.block_name, []⟩)]

/-- One result's contribution to `block_groups`: create the group on first
sight of its key, then set `envs[env_name]`. -/
def addResult (gs : List (String × Group)) (env_name : String) (r : BlockInfo) :
    List (String × Group) :=
  (ensureGroup gs r).map (fun p =>
    if p.1 == groupKey r then
      (p.1, { p.2 with envs := dictInsert p.2.envs env_name ⟨r.scenario_id, r.block_id⟩ })
    else p)

/-- The `block_groups` dict of `display_search_results_multi_env`, in
insertion order. -/
def build_block_groups (env_results : List (String × List BlockInfo)) :
    List (String × Group) :=
  env_results.foldl (fun gs er => er.2.foldl (fun gs2 r => addResult gs2 er.1 r) gs) []

/-- Ordering on grouped rows: by the key string, as Python's tuple
comparison on `(key, value)` pairs with pairwise-distinct keys. -/
def keyLE (a b : String × Group) : Prop :=
  a.1 ≤ b.1

instance : DecidableRel keyLE :=
  fun a b => inferInstanceAs (Decidable (a.1 ≤ b.1))

instance : IsTotal (String × Group) keyLE :=
  ⟨fun a b => le_total a.1 b.1⟩

instance : IsTrans (String × Group) keyLE :=
  ⟨fun _ _ _ h1 h2 => le_trans h1 h2⟩

/-- `sorted(block_groups.items())`: ascending by the key string; the keys
are pairwise distinct, so the sorted permutation is unique and any sort
realises Python's. -/
def display_groups (env_results : List (String × List BlockInfo)) :
    List (String × Group) :=
  List.insertionSort keyLE (build_block_groups env_results)

/-! ## Reference formulations used by refinement statements

These two definitions follow the spec's words ("first match wins" /
last-write-wins dict building) rather than the source's loop structure;
the theorems below compare the source-shaped functions against them. -/

def scenarioItemPairs (scenarios : List Scenario) : List (Scenario × Item) :=
  (scenarios.map (fun sc => sc.items.map (fun it => (sc, it)))).flatten

/-- First matching (scenario, item) pair in snapshot order. -/
def firstMatchLookup (scenarios : List Scenario) (block_id : String) : Option BlockInfo :=
  ((scenarioItemPairs scenarios).find? (fun p => p.2.id == block_id)).map
    (fun p => ⟨p.1.id, p.1.name, block_id, p.2.name⟩)

/-- Last matching (scenario, item) pair in snapshot order. -/
def lastMatchLookup (scenarios : List Scenario) (block_id : String) : Option BlockMeta :=
  ((scenarioItemPairs scenarios).reverse.find? (fun p => p.2.id == block_id)).map
    (fun p => ⟨p.1.id, p.1.name, p.2.name⟩)

/-- The invariant of the parser's path stack: indent depths strictly
decrease from the top of the stack (the list head) downward, i.e. strictly
increase from bottom to top. -/
def stackOK (st : List (String × Nat)) : Prop :=
  List.Chain' (fun a b => b.2 < a.2) st

/-! ## Concrete data used by counterexamples and witnesses -/

/-- A snapshot with a duplicated block id under two different names. -/
def dupScs : List Scenario :=
  [⟨"s1", "S1", [⟨"X", "first"⟩]⟩, ⟨"s2", "S2", [⟨"X", "second"⟩]⟩]

/-- Environment A resolves "X" as scenario "S", block name "B". -/
def exA : List Scenario := [⟨"s1", "S", [⟨"X", "B"⟩]⟩]

/-- Environment B also contains the id "X", but under scenario "T" with
block name "C"; its scenario "S" carries the block named "B" under the
different id "Y". -/
def exB : List Scenario := [⟨"t1", "T", [⟨"X", "C"⟩]⟩, ⟨"s2", "S", [⟨"Y", "B"⟩]⟩]

def exAB : List (String × List Scenario) := [("A", exA), ("B", exB)]

/-- Two environments holding the same logical block (scenario "S", block
"B") under different identifiers. -/
def exSameName : List (String × List Scenario) :=
  [("A", [⟨"sa", "S", [⟨"ida", "B"⟩]⟩]), ("B", [⟨"sb", "S", [⟨"idb", "B"⟩]⟩])]

/-- One environment whose block names collide after `"::"`-joining:
scenario "a::b" with block "c", and scenario "a" with block "b::c". -/
def exC7 : List (String × List Scenario) :=
  [("dev", [⟨"x", "a::b", [⟨"b1", "c"⟩]⟩, ⟨"y", "a", [⟨"b2", "b::c"⟩]⟩])]

/-- A single environment whose snapshot is empty (absent and empty
snapshots are both falsy in the source). -/
def exEmptyEnv : List (String × List Scenario) := [("dev", [])]

/-! ## Parser lemmas -/

theorem takeName_some {l nm rest : List Char} (h : takeName l = some (nm, rest)) :
    ∃ c cs, l = c :: cs ∧ isNameStart c = true := by
  cases l with
  | nil => simp [takeName] at h
  | cons c cs =>
    by_cases hc : isNameStart c
    · exact ⟨c, cs, rfl, hc⟩
    · simp [takeName, hc] at h

theorem matchLeaf_nameStart {l : List Char} {i : Nat} {n h : List Char}
    (hm : matchLeaf l = some (i, n, h)) :
    ∃ c cs, l.dropWhile isSpaceChar = c :: cs ∧ isNameStart c = true := by
  unfold matchLeaf at hm
  split at hm
  · simp at hm
  next htn => exact takeName_some htn

theorem hexTail_shape {r2 hex : List Char} (h : hexTail r2 = some hex) :
    hex.length = 24 ∧ hex.all isHexChar = true := by
  simp only [hexTail] at h
  split at h
  next hcond =>
    rw [Bool.and_eq_true, decide_eq_true_eq] at hcond
    split at h
    · cases h; exact hcond
    · cases h; exact hcond
    · exact absurd h (by simp)
  next => exact absurd h (by simp)

theorem matchLeaf_hex {l : List Char} {i : Nat} {n h : List Char}
    (hm : matchLeaf l = some (i, n, h)) :
    h.length = 24 ∧ h.all isHexChar = true := by
  unfold matchLeaf at hm
  split at hm
  · simp at hm
  · split at hm
    · simp only [Option.map_eq_some'] at hm
      obtain ⟨hex, hhex, heq⟩ := hm
      have hh : h = hex := by
        have := congrArg (fun t : Nat × List Char × List Char => t.2.2) heq
        simpa using this.symm
      exact hh ▸ hexTail_shape hhex
    · simp at hm

/-- When the leaf-reference pattern matches, the parser takes exactly the
leaf branch: pop to the new indent, emit the joined path, push the leaf. -/
theorem processLine_of_matchLeaf (st : ParseState) (ln : Nat × String)
    {i : Nat} {n h : List Char}
    (hm : matchLeaf (rstripChars ln.2.data) = some (i, n, h)) :
    processLine st ln =
      ⟨(String.mk n, i) :: popTo i st.stack,
        st.out ++ [(String.mk h, joinPath (popTo i st.stack) (String.mk n), ln.1)]⟩ := by
  obtain ⟨c, cs, hdw, hns⟩ := matchLeaf_nameStart hm
  have h1 : ¬((rstripChars ln.2.data).dropWhile isSpaceChar = []) := by
    rw [hdw]; simp
  have h2 : ¬(((rstripChars ln.2.data).dropWhile isSpaceChar).head? = some '#') := by
    rw [hdw]
    simp only [List.head?_cons, Option.some.injEq]
    intro hc
    rw [hc] at hns
    exact absurd hns (by decide)
  unfold processLine processLineCore
  rw [if_neg h1, if_neg h2, hm]

/-- Every entry below the head of a well-formed stack is strictly
shallower than the head. -/
theorem stackOK_head_gt {a : String × Nat} {t : List (String × Nat)}
    (h : stackOK (a :: t)) : ∀ e ∈ t, e.2 < a.2 := by
  induction t generalizing a with
  | nil => simp
  | cons b u ih =>
    rw [stackOK, List.chain'_cons] at h
    intro e he
    rcases List.mem_cons.mp he with rfl | heu
    · exact h.1
    · exact lt_trans (ih h.2 e heu) h.1

theorem stackOK_popTo (i : Nat) {st : List (String × Nat)} (h : stackOK st) :
    stackOK (popTo i st) := by
  induction st with
  | nil => exact h
  | cons a t ih =>
    by_cases ha : i ≤ a.2
    · rw [popTo, List.dropWhile_cons_of_pos (by simpa using ha)]
      exact ih h.tail
    · rw [popTo, List.dropWhile_cons_of_neg (by simpa using ha)]
      exact h

theorem popTo_lt (i : Nat) {st : List (String × Nat)} (h : stackOK st) :
    ∀ e ∈ popTo i st, e.2 < i := by
  induction st with
  | nil => simp [popTo]
  | cons a t ih =>
    by_cases ha : i ≤ a.2
    · rw [popTo, List.dropWhile_cons_of_pos (by simpa using ha)]
      exact ih h.tail
    · rw [popTo, List.dropWhile_cons_of_neg (by simpa using ha)]
      intro e he
      rcases List.mem_cons.mp he with rfl | het
      · omega
      · exact lt_trans (stackOK_head_gt h e het) (by omega)

/-- On a well-formed stack, popping to an indent keeps exactly the entries
strictly shallower than it. -/
theorem popTo_eq_filter (i : Nat) {st : List (String × Nat)} (h : stackOK st) :
    popTo i st = st.filter (fun e => decide (e.2 < i)) := by
  induction st with
  | nil => rfl
  | cons a t ih =>
    by_cases ha : i ≤ a.2
    · rw [popTo, List.dropWhile_cons_of_pos (by simpa using ha),
        List.filter_cons_of_neg (by simpa using ha)]
      exact ih h.tail
    · rw [popTo, List.dropWhile_cons_of_neg (by simpa using ha),
        List.filter_cons_of_pos (by simp; omega)]
      congr 1
      exact (List.filter_eq_self.mpr (fun e he => by
        have := stackOK_head_gt h e he
        simp
        omega)).symm

theorem stackOK_push (nm : String) (i : Nat) {st : List (String × Nat)}
    (h : stackOK st) : stackOK ((nm, i) :: popTo i st) := by
  rw [stackOK, List.chain'_cons']
  refine ⟨?_, stackOK_popTo i h⟩
  intro b hb
  have hbm : b ∈ popTo i st := by
    cases hp : popTo i st with
    | nil => rw [hp] at hb; simp at hb
    | cons x xs => rw [hp] at hb; simp at hb; simp [hp, hb]
  exact popTo_lt i h b hbm

theorem processLine_stackOK (st : ParseState) (ln : Nat × String)
    (h : stackOK st.stack) : stackOK (processLine st ln).stack := by
  unfold processLine processLineCore
  split
  · exact h
  · split
    · exact h
    · split
      · exact stackOK_push _ _ h
      · split
        · exact stackOK_push _ _ h
        · exact h

theorem processLines_stackOK (st : ParseState) (lines : List (Nat × String))
    (h : stackOK st.stack) : stackOK (processLines st lines).stack := by
  induction lines generalizing st with
  | nil => exact h
  | cons ln rest ih =>
    exact ih (processLine st ln) (processLine_stackOK st ln h)

theorem joinPath_eq (l : List (String × Nat)) (n : String) :
    joinPath l n = String.intercalate "." (l.reverse.map Prod.fst ++ [n]) := by
  cases l with
  | nil => rfl
  | cons a t => rw [joinPath, if_neg (by simp)]

/-- The spec's worked example parses as stated. -/
theorem parse_spec_example :
    parse_block_ids_from_text
        "hsptlzInfo: # comment\n  hsplzInfoInquiry: 67d2804ef38a8bfdf0172bce # note"
      = [("67d2804ef38a8bfdf0172bce", "hsptlzInfo.hsplzInfoInquiry", 2)] := by
  decide

/-- C1 counterexample.  First input (indents `[0, 2, 4, 2, 0]`, fourth line
a leaf): the emitted path is `"a.d"`, whose single ancestor segment is the
indent-0 node `a`, not the first indent-2 node `b` as the claim states.
Second input: the second reference's path is `"a.b"`, where the ancestor
`a` was pushed by a leaf-reference line, not by a path-node line, so the
path is not the dot-join of PathNode ancestors plus the leaf name. -/
theorem emitted_path_pathnode_cex :
    parse_block_ids_from_text "a:\n  b:\n    c:\n  d: 0123456789abcdef01234567\ne:" =
      [("0123456789abcdef01234567", "a.d", 4)] ∧
    "a.d" ≠ "b.d" ∧
    parse_block_ids_from_text "a: 0123456789abcdef01234567\n  b: 00000000000000000000abcd" =
      [("0123456789abcdef01234567", "a", 1), ("00000000000000000000abcd", "a.b", 2)] ∧
    "a.b" ≠ "b" :=
  ⟨by decide, by decide, by decide, by decide⟩

/-- C1 (amended).  Every ParsedReference emitted for a leaf line carries
the dot-join of the names of all currently-open stack entries of indent
strictly below the leaf's (entries pushed by path-node lines and by earlier
leaf-reference lines alike), followed by the leaf's own key name; for the
indent pattern `[0, 2, 4, 2, 0]` with the fourth line a leaf, the path has
exactly one ancestor segment, the indent-0 node. -/
theorem emitted_path_open_ancestors (pre : List (Nat × String)) (ln : Nat × String)
    (i : Nat) (n h : List Char) :
    (matchLeaf (rstripChars ln.2.data) = some (i, n, h) →
      (processLine (processLines ⟨[], []⟩ pre) ln).out =
        (processLines ⟨[], []⟩ pre).out ++
          [(String.mk h,
            String.intercalate "."
              ((((processLines ⟨[], []⟩ pre).stack.filter
                  (fun e => decide (e.2 < i))).reverse.map Prod.fst) ++ [String.mk n]),
            ln.1)]) ∧
    parse_block_ids_from_text "a:\n  b:\n    c:\n  d: 0123456789abcdef01234567\ne:" =
      [("0123456789abcdef01234567", "a.d", 4)] := by
  constructor
  · intro hm
    have hok := processLines_stackOK ⟨[], []⟩ pre (by simp [stackOK])
    rw [processLine_of_matchLeaf _ _ hm, ← popTo_eq_filter i hok, joinPath_eq]
  · decide

/-- C1 witness: the amended path equation evaluated on a one-line input. -/
theorem emitted_path_open_ancestors_witness :
    (processLine (processLines ⟨[], []⟩ []) (1, "root: 0123456789abcdef01234567")).out =
      (processLines ⟨[], []⟩ []).out ++
        [("0123456789abcdef01234567",
          String.intercalate "."
            ((((processLines ⟨[], []⟩ []).stack.filter
                (fun e => decide (e.2 < 0))).reverse.map Prod.fst) ++ ["root"]),
          1)] :=
  (emitted_path_open_ancestors [] (1, "root: 0123456789abcdef01234567") 0
    "root".data "0123456789abcdef01234567".data).1 (by decide)

/-- C2 counterexample: processing the leaf-reference line
`a: 0123456789abcdef01234567` leaves `("a", 0)` on the stack, while the
claim says the stack should equal the popped stack (`popTo 0 [] = []`) and
nothing more. -/
theorem leaf_not_pushed_cex :
    (processLine ⟨[], []⟩ (1, "a: 0123456789abcdef01234567")).stack = [("a", 0)] ∧
    ([("a", 0)] : List (String × Nat)) ≠ popTo 0 [] :=
  ⟨by decide, by decide⟩

/-- C2 (amended).  After a leaf-reference line the stack equals the popped
stack WITH the leaf's own name pushed on top, so a later, deeper line does
have the leaf as an ancestor in its path — as the second conjunct shows
concretely (`b`'s path is `"a.b"` although `a` is a leaf). -/
theorem leaf_pushed_on_stack (pre : List (Nat × String)) (ln : Nat × String)
    (i : Nat) (n h : List Char) :
    (matchLeaf (rstripChars ln.2.data) = some (i, n, h) →
      (processLine (processLines ⟨[], []⟩ pre) ln).stack =
        (String.mk n, i) :: popTo i (processLines ⟨[], []⟩ pre).stack) ∧
    parse_block_ids_from_text "a: 0123456789abcdef01234567\n  b: 00000000000000000000abcd" =
      [("0123456789abcdef01234567", "a", 1), ("00000000000000000000abcd", "a.b", 2)] := by
  constructor
  · intro hm
    rw [processLine_of_matchLeaf _ _ hm]
  · decide

/-- C2 witness: the amended stack equation evaluated on a one-line input. -/
theorem leaf_pushed_on_stack_witness :
    (processLine (processLines ⟨[], []⟩ []) (1, "root: 0123456789abcdef01234567")).stack =
      ("root", 0) :: popTo 0 (processLines ⟨[], []⟩ []).stack :=
  (leaf_pushed_on_stack [] (1, "root: 0123456789abcdef01234567") 0 "root".data
    "0123456789abcdef01234567".data).1 (by decide)

/-- C3.  After any prefix of input lines the stack's indent depths are
strictly increasing from bottom to top (`stackOK`), and when a
leaf-reference line is processed the emitted path is built from the popped
stack, every entry of which has indent strictly below the leaf's own. -/
theorem stack_indents_strictly_increasing (pre : List (Nat × String)) (ln : Nat × String)
    (i : Nat) (n h : List Char) :
    stackOK (processLines ⟨[], []⟩ pre).stack ∧
    (matchLeaf (rstripChars ln.2.data) = some (i, n, h) →
      (processLine (processLines ⟨[], []⟩ pre) ln).out =
        (processLines ⟨[], []⟩ pre).out ++
          [(String.mk h,
            joinPath (popTo i (processLines ⟨[], []⟩ pre).stack) (String.mk n), ln.1)] ∧
      ∀ e ∈ popTo i (processLines ⟨[], []⟩ pre).stack, e.2 < i) := by
  have hok := processLines_stackOK ⟨[], []⟩ pre (by simp [stackOK])
  refine ⟨hok, fun hm => ⟨?_, popTo_lt i hok⟩⟩
  rw [processLine_of_matchLeaf _ _ hm]

/-- C3 witness: the invariant and the ancestor bound evaluated on a
two-line input. -/
theorem stack_indents_strictly_increasing_witness :
    (processLine (processLines ⟨[], []⟩ [(1, "a:")]) (2, "  b: 0123456789abcdef01234567")).out =
      (processLines ⟨[], []⟩ [(1, "a:")]).out ++
        [("0123456789abcdef01234567",
          joinPath (popTo 2 (processLines ⟨[], []⟩ [(1, "a:")]).stack) "b", 2)] ∧
    ∀ e ∈ popTo 2 (processLines ⟨[], []⟩ [(1, "a:")]).stack, e.2 < 2 :=
  (stack_indents_strictly_increasing [(1, "a:")] (2, "  b: 0123456789abcdef01234567") 2
    "b".data "0123456789abcdef01234567".data).2 (by decide)

/-- C8.  A line can only contribute a ParsedReference when the
leaf-reference pattern matched, and that pattern's extracted identifier is
exactly 24 hex characters; the concrete line `foo: 123` (value too short)
changes neither the output nor the stack and raises nothing. -/
theorem non_hex_line_no_reference (st : ParseState) (ln : Nat × String) :
    ((processLine st ln).out ≠ st.out →
      ∃ i n h, matchLeaf (rstripChars ln.2.data) = some (i, n, h) ∧
        h.length = 24 ∧ h.all isHexChar = true) ∧
    processLine st (ln.1, "foo: 123") = st := by
  refine ⟨?_, rfl⟩
  intro hne
  cases hm : matchLeaf (rstripChars ln.2.data) with
  | some tri =>
    obtain ⟨i, n, h⟩ := tri
    exact ⟨i, n, h, rfl, matchLeaf_hex hm⟩
  | none =>
    exfalso
    apply hne
    unfold processLine processLineCore
    split
    · rfl
    · split
      · rfl
      · simp only [hm]
        cases hn : matchNode (rstripChars ln.2.data) <;> simp [hn]

/-- C8 witness: a leaf line that does emit carries a 24-hex identifier. -/
theorem non_hex_line_no_reference_witness :
    ∃ i n h,
      matchLeaf (rstripChars (String.data "b: 0123456789abcdef01234567")) = some (i, n, h) ∧
        h.length = 24 ∧ h.all isHexChar = true :=
  (non_hex_line_no_reference ⟨[], []⟩ (1, "b: 0123456789abcdef01234567")).1 (by decide)

/-! ## Dataset index lemmas -/

theorem scenarioItemPairs_cons (sc : Scenario) (rest : List Scenario) :
    scenarioItemPairs (sc :: rest) =
      sc.items.map (fun it => (sc, it)) ++ scenarioItemPairs rest := by
  unfold scenarioItemPairs
  rw [List.map_cons, List.flatten_cons]

theorem mem_scenarioItemPairs {scs : List Scenario} {sc : Scenario} {it : Item} :
    (sc, it) ∈ scenarioItemPairs scs ↔ sc ∈ scs ∧ it ∈ sc.items := by
  simp only [scenarioItemPairs, List.mem_flatten, List.mem_map]
  constructor
  · rintro ⟨l, ⟨sc', hsc', rfl⟩, hp⟩
    obtain ⟨it', hit', heq⟩ := List.mem_map.mp hp
    obtain ⟨rfl, rfl⟩ := Prod.mk.inj heq
    exact ⟨hsc', hit'⟩
  · rintro ⟨hsc, hit⟩
    exact ⟨sc.items.map (fun i => (sc, i)), ⟨sc, hsc, rfl⟩, List.mem_map_of_mem _ hit⟩

theorem all_blocks_entries_eq (scs : List Scenario) :
    all_blocks_entries scs =
      (scenarioItemPairs scs).map
        (fun p => (p.2.id, (⟨p.1.id, p.1.name, p.2.name⟩ : BlockMeta))) := by
  unfold all_blocks_entries scenarioItemPairs
  rw [List.map_flatten, List.map_map]
  congr 1
  refine List.map_congr_left (fun sc _ => ?_)
  simp [List.map_map, Function.comp]

theorem dictLookupLast_eq (scs : List Scenario) (bid : String) :
    dictLookupLast (all_blocks_entries scs) bid = lastMatchLookup scs bid := by
  unfold dictLookupLast lastMatchLookup
  rw [all_blocks_entries_eq, ← List.map_reverse, List.find?_map, Option.map_map]
  rfl

theorem search_blocks_by_id_eq (scs : List Scenario) (bid : String) :
    search_blocks_by_id scs bid = firstMatchLookup scs bid := by
  induction scs with
  | nil => rfl
  | cons sc rest ih =>
    unfold search_blocks_by_id firstMatchLookup
    rw [scenarioItemPairs_cons, List.find?_append, List.find?_map]
    cases hf : sc.items.find? (fun it => it.id == bid) with
    | some it =>
      have : sc.items.find? ((fun p : Scenario × Item => p.2.id == bid) ∘ fun it => (sc, it))
          = some it := hf
      rw [this]
      rfl
    | none =>
      have : sc.items.find? ((fun p : Scenario × Item => p.2.id == bid) ∘ fun it => (sc, it))
          = none := hf
      rw [this]
      exact ih

theorem dictLookupLast_isSome_iff (scs : List Scenario) (bid : String) :
    (dictLookupLast (all_blocks_entries scs) bid).isSome = true ↔
      ∃ sc ∈ scs, ∃ it ∈ sc.items, it.id = bid := by
  rw [dictLookupLast_eq]
  unfold lastMatchLookup
  rw [Option.isSome_map', List.find?_isSome]
  constructor
  · rintro ⟨p, hp, hpb⟩
    obtain ⟨sc, it⟩ := p
    rw [List.mem_reverse] at hp
    obtain ⟨hsc, hit⟩ := mem_scenarioItemPairs.mp hp
    exact ⟨sc, hsc, it, hit, by simpa using hpb⟩
  · rintro ⟨sc, hsc, it, hit, hid⟩
    exact ⟨(sc, it), List.mem_reverse.mpr (mem_scenarioItemPairs.mpr ⟨hsc, hit⟩),
      by simp [hid]⟩

theorem dictLookupLast_some_meta {scs : List Scenario} {bid : String} {m : BlockMeta}
    (h : dictLookupLast (all_blocks_entries scs) bid = some m) :
    ∃ sc ∈ scs, ∃ it ∈ sc.items, it.id = bid ∧ m = ⟨sc.id, sc.name, it.name⟩ := by
  rw [dictLookupLast_eq] at h
  unfold lastMatchLookup at h
  obtain ⟨p, hp, hm⟩ := Option.map_eq_some'.mp h
  obtain ⟨sc, it⟩ := p
  have hmem := List.mem_reverse.mp (List.mem_of_find?_eq_some hp)
  have hpred := List.find?_some hp
  obtain ⟨hsc, hit⟩ := mem_scenarioItemPairs.mp hmem
  exact ⟨sc, hsc, it, hit, by simpa using hpred, hm.symm⟩

/-- C5 counterexample: on a snapshot with the id `X` duplicated, the
validator's index resolves to the SECOND matching item (`"second"`), while
`search_blocks_by_id` resolves to the first; the claim that both resolve
to the first matching item fails. -/
theorem duplicate_id_first_match_cex :
    validate_block_ids [("X", "p", 1)] dupScs "dev" =
      [⟨"X", "p", 1, true, some "s2", some "S2", some "second"⟩] ∧
    search_blocks_by_id dupScs "X" = some ⟨"s1", "S1", "X", "first"⟩ ∧
    ("second" : String) ≠ "first" :=
  ⟨by decide, by decide, by decide⟩

/-- C5 (amended).  Identifier lookup is deterministic and total, but the
two lookup paths differ on duplicates: `search_blocks_by_id` returns the
FIRST matching (scenario, item) pair in snapshot order, while the
validator's dict index (built by overwriting assignments) resolves to the
LAST matching pair; neither raises. -/
theorem id_lookup_first_vs_last (scs : List Scenario) (bid : String) :
    search_blocks_by_id scs bid = firstMatchLookup scs bid ∧
    dictLookupLast (all_blocks_entries scs) bid = lastMatchLookup scs bid :=
  ⟨search_blocks_by_id_eq scs bid, dictLookupLast_eq scs bid⟩

/-- C6.  The validator returns one result per input triple, in order,
without deduplication; a resolvable identifier yields `valid = true` with
the matching scenario/block names copied in, an unresolvable one yields
`valid = false` with every resolved field `None`. -/
theorem validate_pointwise (block_ids : List (String × String × Nat))
    (scs : List Scenario) (env : String) :
    (validate_block_ids block_ids scs env).length = block_ids.length ∧
    ∀ (k : Nat) (bid path : String) (ln : Nat), block_ids[k]? = some (bid, path, ln) →
      ∃ r : ValidationResult, (validate_block_ids block_ids scs env)[k]? = some r ∧
        r.block_id = bid ∧ r.path = path ∧ r.line_number = ln ∧
        (r.valid = true ↔ ∃ sc ∈ scs, ∃ it ∈ sc.items, it.id = bid) ∧
        (r.valid = true → ∃ sc ∈ scs, ∃ it ∈ sc.items, it.id = bid ∧
          r.scenario_id = some sc.id ∧ r.scenario_name = some sc.name ∧
          r.block_name = some it.name) ∧
        (r.valid = false →
          r.scenario_id = none ∧ r.scenario_name = none ∧ r.block_name = none) := by
  constructor
  · unfold validate_block_ids
    exact List.length_map _ _
  · intro k bid path ln hk
    unfold validate_block_ids
    rw [List.getElem?_map, hk, Option.map_some']
    cases hd : dictLookupLast (all_blocks_entries scs) bid with
    | some m =>
      simp only [hd]
      refine ⟨_, rfl, rfl, rfl, rfl, ?_, ?_, ?_⟩
      · exact ⟨fun _ => (dictLookupLast_isSome_iff scs bid).mp (by rw [hd]; rfl),
          fun _ => rfl⟩
      · intro _
        obtain ⟨sc, hsc, it, hit, hid, hm⟩ := dictLookupLast_some_meta hd
        exact ⟨sc, hsc, it, hit, hid, by rw [hm], by rw [hm], by rw [hm]⟩
      · intro hv
        exact absurd hv (by simp)
    | none =>
      simp only [hd]
      refine ⟨_, rfl, rfl, rfl, rfl, ?_, ?_, fun _ => ⟨rfl, rfl, rfl⟩⟩
      · constructor
        · intro hv
          exact absurd hv (by simp)
        · intro hex
          have := (dictLookupLast_isSome_iff scs bid).mpr hex
          rw [hd] at this
          exact absurd this (by simp)
      · intro hv
        exact absurd hv (by simp)

/-- C6 witness: the pointwise description evaluated at index 0 of a
one-reference input against the duplicate snapshot. -/
theorem validate_pointwise_witness :
    ∃ r : ValidationResult, (validate_block_ids [("X", "p", 1)] dupScs "dev")[0]? = some r ∧
      r.block_id = "X" ∧ r.path = "p" ∧ r.line_number = 1 ∧
      (r.valid = true ↔ ∃ sc ∈ dupScs, ∃ it ∈ sc.items, it.id = "X") ∧
      (r.valid = true → ∃ sc ∈ dupScs, ∃ it ∈ sc.items, it.id = "X" ∧
        r.scenario_id = some sc.id ∧ r.scenario_name = some sc.name ∧
        r.block_name = some it.name) ∧
      (r.valid = false →
        r.scenario_id = none ∧ r.scenario_name = none ∧ r.block_name = none) :=
  (validate_pointwise [("X", "p", 1)] dupScs "dev").2 0 "X" "p" 1 (by decide)

/-! ## Multi-environment lemmas -/

theorem map_fst_eq {β γ : Type} (l : List (String × β)) (f : String × β → String × γ)
    (hf : ∀ p, (f p).1 = p.1) : (l.map f).map Prod.fst = l.map Prod.fst := by
  induction l with
  | nil => rfl
  | cons a t ih => simp only [List.map_cons, hf, ih]

/-- Key-based lookup into a key-preserving map over an association list
with distinct keys agrees with positional access. -/
theorem lookup_map_of_nodup {β γ : Type} (es : List (String × β)) (f : String × β → γ)
    (hnd : (es.map Prod.fst).Nodup) (k : Nat) (e : String) (v : β)
    (hk : es[k]? = some (e, v)) :
    (es.map (fun p => (p.1, f p))).lookup e = some (f (e, v)) := by
  induction es generalizing k with
  | nil => simp at hk
  | cons a t ih =>
    cases k with
    | zero =>
      rw [List.getElem?_cons_zero] at hk
      obtain rfl := Option.some.inj hk
      simp [List.lookup]
    | succ k' =>
      rw [List.getElem?_cons_succ] at hk
      have hmem : e ∈ t.map Prod.fst :=
        List.mem_map_of_mem Prod.fst (List.getElem?_mem hk)
      rw [List.map_cons, List.nodup_cons] at hnd
      have hne : (e == a.1) = false := by
        rw [beq_eq_false_iff_ne]
        intro h
        exact hnd.1 (h ▸ hmem)
      simp only [List.map_cons, List.lookup, hne]
      exact ih hnd.2 k' hk

theorem sbm_eq_direct {es : List (String × List Scenario)} {id : String}
    (hs : sbMsource es id = none) :
    search_by_block_id_multi_env es id = sbmDirect es id := by
  unfold search_by_block_id_multi_env
  rw [hs]

/-- Pointwise description of `search_by_block_id_multi_env` when a source
was found: a direct id hit is kept, otherwise the name-based lookup for the
source's (scenario name, block name) fills the entry. -/
theorem sbm_pointwise {es : List (String × List Scenario)} {id : String}
    {src : String × BlockInfo}
    (hnd : (es.map Prod.fst).Nodup)
    (hs : sbMsource es id = some src)
    (k : Nat) (e : String) (scs : List Scenario)
    (hk : es[k]? = some (e, scs)) :
    (search_by_block_id_multi_env es id)[k]? = some (e,
      match (if scs = [] then none else search_blocks_by_id scs id) with
      | some x => some x
      | none => match_block_in_env scs src.2.scenario_name src.2.block_name) := by
  unfold search_by_block_id_multi_env
  rw [hs, List.getElem?_map]
  unfold sbmDirect
  rw [List.getElem?_map, hk, Option.map_some', Option.map_some']
  cases hd : (if scs = [] then none else search_blocks_by_id scs id) with
  | some x => simp only [hd]
  | none =>
    simp only [hd]
    unfold find_matching_blocks_in_other_envs
    rw [lookup_map_of_nodup es
      (fun p => match_block_in_env p.2 src.2.scenario_name src.2.block_name) hnd k e scs hk]
    cases hm : match_block_in_env scs src.2.scenario_name src.2.block_name <;> simp [hm]

/-- C10.  Every multi-environment result is total over the input keys: the
three functions return association lists with exactly the environment keys
of `env_scenarios`, in order, so no environment is silently dropped; misses
appear as explicit `none` (or `[]`) values. -/
theorem multi_env_result_total (es : List (String × List Scenario))
    (id se sn bn term : String) :
    (search_by_block_id_multi_env es id).map Prod.fst = es.map Prod.fst ∧
    (find_matching_blocks_in_other_envs es se sn bn).map Prod.fst = es.map Prod.fst ∧
    (search_blocks_multi_env es term).map Prod.fst = es.map Prod.fst := by
  refine ⟨?_, map_fst_eq es _ (fun p => rfl), map_fst_eq es _ (fun p => rfl)⟩
  unfold search_by_block_id_multi_env
  cases hs : sbMsource es id with
  | none =>
    show (sbmDirect es id).map Prod.fst = es.map Prod.fst
    unfold sbmDirect
    exact map_fst_eq es _ (fun p => rfl)
  | some src =>
    have hd : (sbmDirect es id).map Prod.fst = es.map Prod.fst := by
      unfold sbmDirect
      exact map_fst_eq es _ (fun p => rfl)
    have hm := map_fst_eq (sbmDirect es id)
      (fun p => (p.1,
        match p.2 with
        | some x => some x
        | none =>
          match List.lookup p.1 (find_matching_blocks_in_other_envs es src.1
              src.2.scenario_name src.2.block_name) with
          | some (some m) => some m
          | some none => none
          | none => none)) (fun p => rfl)
    exact hm.trans hd

/-- C4 counterexample: querying id "X" (source environment A); environment
B also resolves "X" directly, under scenario "T", so B's entry keeps that
direct hit instead of the name-based lookup result for (S, B), which is a
different block. -/
theorem cross_env_other_entry_cex :
    search_by_block_id_multi_env exAB "X" =
      [("A", some ⟨"s1", "S", "X", "B"⟩), ("B", some ⟨"t1", "T", "X", "C"⟩)] ∧
    match_block_in_env exB "S" "B" = some ⟨"s2", "S", "Y", "B"⟩ ∧
    (some (⟨"t1", "T", "X", "C"⟩ : BlockInfo)) ≠ some ⟨"s2", "S", "Y", "B"⟩ :=
  ⟨by decide, by decide, by decide⟩

/-- C4 (amended).  With distinct environment keys and a resolved source:
the source environment's entry is the original (scenario id, block id)
pair; an environment where the queried identifier also resolves directly
keeps its direct lookup result; every remaining environment's entry is the
name-based lookup for the source's (scenario name, block name) — which may
carry a different identifier than the source's. -/
theorem cross_env_match_entries (es : List (String × List Scenario)) (id : String)
    (src : String × BlockInfo)
    (hnd : (es.map Prod.fst).Nodup)
    (hs : sbMsource es id = some src) :
    (∃ (k : Nat) (scs : List Scenario), es[k]? = some (src.1, scs) ∧ scs ≠ [] ∧
      search_blocks_by_id scs id = some src.2 ∧
      (search_by_block_id_multi_env es id)[k]? = some (src.1, some src.2)) ∧
    (∀ (k : Nat) (e : String) (scs : List Scenario), es[k]? = some (e, scs) →
      (search_by_block_id_multi_env es id)[k]? = some (e,
        match (if scs = [] then none else search_blocks_by_id scs id) with
        | some x => some x
        | none => match_block_in_env scs src.2.scenario_name src.2.block_name)) := by
  have hpoint : ∀ (k : Nat) (e : String) (scs : List Scenario), es[k]? = some (e, scs) →
      (search_by_block_id_multi_env es id)[k]? = some (e,
        match (if scs = [] then none else search_blocks_by_id scs id) with
        | some x => some x
        | none => match_block_in_env scs src.2.scenario_name src.2.block_name) :=
    fun k e scs hk => sbm_pointwise hnd hs k e scs hk
  refine ⟨?_, hpoint⟩
  obtain ⟨p, hp, hfp⟩ := List.exists_of_findSome?_eq_some hs
  by_cases hpe : p.2 = []
  · rw [if_pos hpe] at hfp
    exact absurd hfp (by simp)
  · rw [if_neg hpe] at hfp
    obtain ⟨b, hb, hsrc⟩ := Option.map_eq_some'.mp hfp
    obtain ⟨k, hk⟩ := List.mem_iff_getElem?.mp hp
    subst hsrc
    refine ⟨k, p.2, ?_, hpe, hb, ?_⟩
    · rw [hk]
    · have hthis := hpoint k p.1 p.2 hk
      simp only [if_neg hpe, hb] at hthis
      exact hthis

/-- C4 witness: in two environments holding (scenario "S", block "B")
under the identifiers "ida" (A) and "idb" (B), querying "ida" yields B's
different identifier under B's key. -/
theorem cross_env_match_entries_witness :
    (search_by_block_id_multi_env exSameName "ida")[1]? =
      some ("B", some ⟨"sb", "S", "idb", "B"⟩) := by
  have h := (cross_env_match_entries exSameName "ida" ("A", ⟨"sa", "S", "ida", "B"⟩)
    (by decide) (by decide)).2 1 "B" [⟨"sb", "S", [⟨"idb", "B"⟩]⟩] (by decide)
  exact h

/-- C9.  If the queried identifier resolves in no loaded environment the
result maps every environment to `none`; and an environment whose snapshot
is empty (or absent — both falsy in the source) is mapped to `none`
whether or not a source exists, with no exception anywhere. -/
theorem unresolved_id_and_empty_env (es : List (String × List Scenario)) (id : String)
    (hnd : (es.map Prod.fst).Nodup) :
    ((∀ p ∈ es, p.2 = [] ∨ search_blocks_by_id p.2 id = none) →
      search_by_block_id_multi_env es id =
        es.map (fun p => (p.1, (none : Option BlockInfo)))) ∧
    (∀ (k : Nat) (e : String), es[k]? = some (e, ([] : List Scenario)) →
      (search_by_block_id_multi_env es id)[k]? = some (e, (none : Option BlockInfo))) := by
  constructor
  · intro hall
    have hs : sbMsource es id = none := by
      unfold sbMsource
      rw [List.findSome?_eq_none_iff]
      intro p hp
      rcases hall p hp with h | h
      · rw [if_pos h]
      · by_cases hpe : p.2 = []
        · rw [if_pos hpe]
        · rw [if_neg hpe, h]
          rfl
    rw [sbm_eq_direct hs]
    unfold sbmDirect
    refine List.map_congr_left (fun p hp => ?_)
    rcases hall p hp with h | h
    · rw [if_pos h]
    · by_cases hpe : p.2 = []
      · rw [if_pos hpe]
      · rw [if_neg hpe, h]
  · intro k e hk
    cases hs : sbMsource es id with
    | none =>
      rw [sbm_eq_direct hs]
      unfold sbmDirect
      rw [List.getElem?_map, hk, Option.map_some', if_pos rfl]
    | some src =>
      have hthis := sbm_pointwise hnd hs k e [] hk
      simpa [match_block_in_env] using hthis

/-- C9 witness: a lone empty environment yields an explicit `none` without
error, whatever the query. -/
theorem unresolved_id_and_empty_env_witness :
    search_by_block_id_multi_env exEmptyEnv "q" = [("dev", none)] ∧
    (search_by_block_id_multi_env exEmptyEnv "q")[0]? = some ("dev", none) := by
  have h := unresolved_id_and_empty_env exEmptyEnv "q" (by decide)
  exact ⟨h.1 (by decide), h.2 0 "dev" (by decide)⟩

/-! ## Grouping lemmas for the multi-environment name search display -/

theorem ensureGroup_keys (gs : List (String × Group)) (r : BlockInfo) :
    (ensureGroup gs r).map Prod.fst =
      if gs.any (fun p => p.1 == groupKey r) then gs.map Prod.fst
      else gs.map Prod.fst ++ [groupKey r] := by
  unfold ensureGroup
  by_cases hc : gs.any (fun p => p.1 == groupKey r)
  · rw [if_pos hc, if_pos hc]
  · rw [if_neg hc, if_neg hc, List.map_append]
    rfl

theorem addResult_keys (gs : List (String × Group)) (e : String) (r : BlockInfo) :
    (addResult gs e r).map Prod.fst = (ensureGroup gs r).map Prod.fst := by
  unfold addResult
  refine map_fst_eq _ _ (fun p => ?_)
  by_cases hp : (p.1 == groupKey r) = true
  · rw [if_pos hp]
  · rw [if_neg hp]

theorem addResult_key_mem (gs : List (String × Group)) (e : String) (r : BlockInfo)
    (key : String) :
    key ∈ (addResult gs e r).map Prod.fst ↔
      key ∈ gs.map Prod.fst ∨ key = groupKey r := by
  rw [addResult_keys, ensureGroup_keys]
  by_cases hc : gs.any (fun p => p.1 == groupKey r)
  · rw [if_pos hc]
    constructor
    · exact Or.inl
    · rintro (h | rfl)
      · exact h
      · obtain ⟨p, hp, hpk⟩ := List.any_eq_true.mp hc
        have hpe : p.1 = groupKey r := by simpa using hpk
        exact hpe ▸ List.mem_map_of_mem Prod.fst hp
  · rw [if_neg hc]
    simp [List.mem_append]

theorem addResult_keys_nodup (gs : List (String × Group)) (e : String) (r : BlockInfo)
    (h : (gs.map Prod.fst).Nodup) : ((addResult gs e r).map Prod.fst).Nodup := by
  rw [addResult_keys, ensureGroup_keys]
  by_cases hc : gs.any (fun p => p.1 == groupKey r)
  · rw [if_pos hc]
    exact h
  · rw [if_neg hc]
    have hnotin : groupKey r ∉ gs.map Prod.fst := by
      intro hmem
      obtain ⟨p, hp, hpe⟩ := List.mem_map.mp hmem
      exact hc (List.any_eq_true.mpr ⟨p, hp, by simp [hpe]⟩)
    simp [List.nodup_append, h, hnotin, List.disjoint_singleton]

theorem foldl_addResult_key_mem (rs : List BlockInfo) (e : String)
    (gs : List (String × Group)) (key : String) :
    key ∈ ((rs.foldl (fun g r => addResult g e r) gs).map Prod.fst) ↔
      key ∈ gs.map Prod.fst ∨ ∃ r ∈ rs, key = groupKey r := by
  induction rs generalizing gs with
  | nil => simp
  | cons r t ih =>
    rw [List.foldl_cons, ih, addResult_key_mem]
    constructor
    · rintro ((h | h) | ⟨r', hr', h⟩)
      · exact Or.inl h
      · exact Or.inr ⟨r, List.mem_cons_self r t, h⟩
      · exact Or.inr ⟨r', List.mem_cons_of_mem r hr', h⟩
    · rintro (h | ⟨r', hr', h⟩)
      · exact Or.inl (Or.inl h)
      · rcases List.mem_cons.mp hr' with rfl | hmem
        · exact Or.inl (Or.inr h)
        · exact Or.inr ⟨r', hmem, h⟩

theorem foldl_addResult_nodup (rs : List BlockInfo) (e : String)
    (gs : List (String × Group)) (h : (gs.map Prod.fst).Nodup) :
    (((rs.foldl (fun g r => addResult g e r) gs)).map Prod.fst).Nodup := by
  induction rs generalizing gs with
  | nil => exact h
  | cons r t ih => exact ih _ (addResult_keys_nodup gs e r h)

theorem build_fold_key_mem (er : List (String × List BlockInfo))
    (gs : List (String × Group)) (key : String) :
    key ∈ ((er.foldl (fun g p => p.2.foldl (fun g2 r => addResult g2 p.1 r) g) gs).map
      Prod.fst) ↔
      key ∈ gs.map Prod.fst ∨ ∃ e rs, (e, rs) ∈ er ∧ ∃ r ∈ rs, key = groupKey r := by
  induction er generalizing gs with
  | nil => simp
  | cons p t ih =>
    rw [List.foldl_cons, ih, foldl_addResult_key_mem]
    constructor
    · rintro ((h | ⟨r, hr, h⟩) | ⟨e, rs, hm, hx⟩)
      · exact Or.inl h
      · exact Or.inr ⟨p.1, p.2, List.mem_cons_self p t, r, hr, h⟩
      · exact Or.inr ⟨e, rs, List.mem_cons_of_mem p hm, hx⟩
    · rintro (h | ⟨e, rs, hm, r, hr, h⟩)
      · exact Or.inl (Or.inl h)
      · rcases List.mem_cons.mp hm with heq | hmem
        · refine Or.inl (Or.inr ⟨r, ?_, h⟩)
          rw [show p.2 = rs from (congrArg Prod.snd heq).symm]
          exact hr
        · exact Or.inr ⟨e, rs, hmem, r, hr, h⟩

theorem build_block_groups_key_mem (er : List (String × List BlockInfo)) (key : String) :
    key ∈ (build_block_groups er).map Prod.fst ↔
      ∃ e rs, (e, rs) ∈ er ∧ ∃ r ∈ rs, key = groupKey r := by
  unfold build_block_groups
  rw [build_fold_key_mem]
  simp

theorem build_block_groups_nodup (er : List (String × List BlockInfo)) :
    ((build_block_groups er).map Prod.fst).Nodup := by
  unfold build_block_groups
  have h : ∀ (t : List (String × List BlockInfo)) (gs : List (String × Group)),
      (gs.map Prod.fst).Nodup →
      ((t.foldl (fun g p => p.2.foldl (fun g2 r => addResult g2 p.1 r) g) gs).map
        Prod.fst).Nodup := by
    intro t
    induction t with
    | nil => exact fun gs hgs => hgs
    | cons p t2 ih =>
      intro gs hgs
      exact ih _ (foldl_addResult_nodup p.2 p.1 gs hgs)
  exact h er [] (by simp)

/-- C7 counterexample: for the term "c" (which is no block id anywhere),
the name search in `exC7` returns two results with DIFFERENT
(scenario name, block name) pairs, yet the grouped display holds a single
comparison row, because both pairs collide on the joined string key
"a::b::c". -/
theorem grouping_collision_cex :
    block_id_found exC7 "c" = false ∧
    search_blocks_multi_env exC7 "c" =
      [("dev", [⟨"x", "a::b", "b1", "c"⟩, ⟨"y", "a", "b2", "b::c"⟩])] ∧
    (display_groups (search_blocks_multi_env exC7 "c")).length = 1 ∧
    (("a::b" : String), ("c" : String)) ≠ ("a", "b::c") :=
  ⟨by decide, by decide, by decide, by decide⟩

/-- C7 (amended).  The dispatch applies identifier-exact mode exactly when
the term resolves as a block id in some non-empty environment, and
otherwise name mode, whose per-environment results are the
case-insensitive substring matches; the display groups results across
environments by the joined STRING key `scenarioName ++ "::" ++ blockName`
(one row per distinct key string — which coincides with one row per
(scenario name, block name) pair only when the joined keys do not
collide), sorted ascending by that key string. -/
theorem search_dispatch_and_grouping (es : List (String × List Scenario))
    (term : String) (er : List (String × List BlockInfo)) :
    (block_id_found es term = true →
      search_mode_dispatch es term = Sum.inl (search_by_block_id_multi_env es term)) ∧
    (block_id_found es term = false →
      search_mode_dispatch es term = Sum.inr (search_blocks_multi_env es term)) ∧
    (block_id_found es term = true ↔
      ∃ p ∈ es, p.2 ≠ [] ∧ (search_blocks_by_id p.2 term).isSome = true) ∧
    (∀ (scs : List Scenario) (r : BlockInfo), r ∈ search_blocks scs term ↔
      (term ≠ "" ∧ ∃ sc ∈ scs, ∃ it ∈ sc.items,
        containsSub (lowerChars term.data) (lowerChars it.name.data) = true ∧
        r = ⟨sc.id, sc.name, it.id, it.name⟩)) ∧
    List.Sorted keyLE (display_groups er) ∧
    ((display_groups er).map Prod.fst).Nodup ∧
    (∀ key, key ∈ (display_groups er).map Prod.fst ↔
      ∃ e rs, (e, rs) ∈ er ∧ ∃ r ∈ rs, key = groupKey r) := by
  have hperm : List.Perm ((display_groups er).map Prod.fst)
      ((build_block_groups er).map Prod.fst) :=
    (List.perm_insertionSort keyLE (build_block_groups er)).map Prod.fst
  refine ⟨?_, ?_, ?_, ?_, ?_, ?_, ?_⟩
  · intro h
    unfold search_mode_dispatch
    rw [if_pos h]
  · intro h
    unfold search_mode_dispatch
    rw [if_neg (by simp [h])]
  · unfold block_id_found
    rw [List.any_eq_true]
    constructor
    · rintro ⟨p, hp, hb⟩
      rw [Bool.and_eq_true, Bool.not_eq_true'] at hb
      exact ⟨p, hp, by simpa [List.isEmpty_iff] using hb.1, hb.2⟩
    · rintro ⟨p, hp, hne, hb⟩
      exact ⟨p, hp, by simp [List.isEmpty_iff, hne, hb]⟩
  · intro scs r
    unfold search_blocks
    by_cases ht : term = ""
    · simp [ht]
    · rw [if_neg ht]
      simp only [List.mem_flatten, List.mem_map, ne_eq, ht, not_false_iff, true_and]
      constructor
      · rintro ⟨l, ⟨sc, hsc, rfl⟩, hr⟩
        obtain ⟨it, hit, hif⟩ := List.mem_filterMap.mp hr
        by_cases hc : containsSub (lowerChars term.data) (lowerChars it.name.data) = true
        · rw [if_pos hc] at hif
          exact ⟨sc, hsc, it, hit, hc, (Option.some.inj hif).symm⟩
        · rw [if_neg hc] at hif
          cases hif
      · rintro ⟨sc, hsc, it, hit, hc, rfl⟩
        refine ⟨_, ⟨sc, hsc, rfl⟩, List.mem_filterMap.mpr ⟨it, hit, ?_⟩⟩
        rw [if_pos hc]
  · exact List.sorted_insertionSort keyLE (build_block_groups er)
  · exact hperm.nodup_iff.mpr (build_block_groups_nodup er)
  · intro key
    rw [hperm.mem_iff, build_block_groups_key_mem]

/-- C7 witness: the dispatch picks identifier-exact mode for a resolvable
id and name mode for a plain term. -/
theorem search_dispatch_and_grouping_witness :
    search_mode_dispatch exSameName "ida" =
      Sum.inl (search_by_block_id_multi_env exSameName "ida") ∧
    search_mode_dispatch exC7 "c" = Sum.inr (search_blocks_multi_env exC7 "c") :=
  ⟨(search_dispatch_and_grouping exSameName "ida" []).1 (by decide),
   (search_dispatch_and_grouping exC7 "c" []).2.1 (by decide)⟩

end FilterScenarios
